import Mathlib

/-!
Verification of the fuzzy-membership core of `graphic.py` (repository
Pavel3333/Matmod).

The embedding below follows the source closely:

* `Plot` embeds the `Plot` namedtuple `(label, coords)` with its derived
  properties `start = min(coords)`, `end = max(coords)`, `size = end - start`
  and the trapezoidal `membership` method.
* `numpyArange` embeds `numpy.arange(stop)` for a scalar `stop`: the values
  `0, 1, 2, ...` strictly below `stop`, i.e. `⌈stop⌉` values (empty when
  `stop ≤ 0`).
* `Layout.create` embeds the aggregation loop of `Layout.create` (lines
  67-78): for every plot, for every sample point `x`, the table `values`
  is updated with `plot.membership(x)` unless the stored value is larger.
  The matplotlib rendering calls in the source are presentation only and
  carry no data flow into `values`; they are not modelled.
* Python floats are embedded as rationals `ℚ`; the `values` dict is embedded
  as a function `ℚ → Option ℚ` (`none` = key absent); the `plots` set is
  embedded as a duplicate-free list built by `Layout.add`, whose iteration
  order is proved irrelevant.
-/

namespace Matmod

/-- Embeds the `Plot` namedtuple: a `label` and a 4-tuple `coords` of
breakpoints.  Python namedtuple equality is componentwise, matching the
derived `DecidableEq`. -/
structure Plot where
  label : String
  coords : ℚ × ℚ × ℚ × ℚ
deriving DecidableEq

/-- First breakpoint `a` of `coords = (a, b, c, d)`. -/
def Plot.a (p : Plot) : ℚ := p.coords.1

/-- Second breakpoint `b` of `coords = (a, b, c, d)`. -/
def Plot.b (p : Plot) : ℚ := p.coords.2.1

/-- Third breakpoint `c` of `coords = (a, b, c, d)`. -/
def Plot.c (p : Plot) : ℚ := p.coords.2.2.1

/-- Fourth breakpoint `d` of `coords = (a, b, c, d)`. -/
def Plot.d (p : Plot) : ℚ := p.coords.2.2.2

/-- Embeds the `start` property: `min(self.coords)`, the minimum of the four
breakpoints (Python folds `min` over the tuple from the left). -/
def Plot.start (p : Plot) : ℚ := min (min (min p.a p.b) p.c) p.d

/-- Embeds the `end` property: `max(self.coords)` (`end` is a Lean keyword,
hence the underscore). -/
def Plot.end_ (p : Plot) : ℚ := max (max (max p.a p.b) p.c) p.d

/-- Embeds the `size` property: `self.end - self.start`. -/
def Plot.size (p : Plot) : ℚ := p.end_ - p.start

/-- Embeds the `membership` method verbatim, branch by branch.  The Python
method returns `None` when it falls off the end of the `if` chain, embedded
here as `none`; `membership_total` below proves that branch unreachable for
every input. -/
def Plot.membership (p : Plot) (x : ℚ) : Option ℚ :=
  if p.d < x ∨ x < p.a then some 0
  else if p.a ≤ x ∧ x < p.b then some ((x - p.a) / (p.b - p.a))
  else if p.b ≤ x ∧ x ≤ p.c then some 1
  else if p.c < x ∧ x ≤ p.d then some ((p.d - x) / (p.d - p.c))
  else none

/-- The numeric value produced by `membership`; justified by
`membership_total`, which shows `membership` never returns `none`, so the
default `0` is never used. -/
def Plot.membershipD (p : Plot) (x : ℚ) : ℚ := (p.membership x).getD 0

/-- Embeds `numpy.arange(stop)` for a scalar (possibly fractional) `stop`:
the arithmetic progression `0, 1, 2, ...` of all values strictly less than
`stop`; its length is `⌈stop⌉` (and `0` when `stop ≤ 0`). -/
def numpyArange (stop : ℚ) : List ℚ :=
  (List.range (Nat.ceil stop)).map (fun k : ℕ => (k : ℚ))

/-- Embeds line 68, `xValues = plot.start + numpy.arange(plot.size)`:
`plot.start` added pointwise to `numpy.arange(plot.size)`. -/
def Plot.sampleXs (p : Plot) : List ℚ :=
  (numpyArange p.size).map (fun v => p.start + v)

/-- Embeds the `values` dict of a `Layout`: a partial map from sample point
to aggregated membership value. -/
abbrev Table := ℚ → Option ℚ

/-- Embeds `self.values = {}` (line 54): the empty dict. -/
def emptyTable : Table := fun _ => none

/-- Embeds `values[x] = newY`: update the dict at key `x`. -/
def Table.update (t : Table) (x y : ℚ) : Table :=
  fun z => if z = x then some y else t z

/-- Embeds the body of the inner loop of `Layout.create` (lines 71-78) at a
single sample point `x`:
`newY = plot.membership(x); oldY = values.get(x);`
`if oldY is not None and oldY > newY: continue; values[x] = newY`. -/
def stepTable (p : Plot) (t : Table) (x : ℚ) : Table :=
  match t x with
  | some oldY => if oldY > p.membershipD x then t else t.update x (p.membershipD x)
  | none => t.update x (p.membershipD x)

/-- Embeds the inner loop `for x in xValues` of `Layout.create` for one
plot. -/
def processPlot (t : Table) (p : Plot) : Table :=
  p.sampleXs.foldl (stepTable p) t

/-- Embeds the `Layout` namedtuple fields `(title, start, end)`; the mutable
attributes `values` and `plots` are threaded explicitly through
`Layout.create` and `Layout.add`. -/
structure Layout where
  title : String
  start : ℚ
  end_ : ℚ

/-- Embeds the `size` property of `Layout`: `self.end - self.start`. -/
def Layout.size (l : Layout) : ℚ := l.end_ - l.start

/-- Embeds the outer loop `for plot in self.plots` of `Layout.create`,
starting from the current `values` table `t`.  The plot set is represented
as a list; order-independence is proved in the `C6` theorem. -/
def Layout.create (t : Table) (ps : List Plot) : Table :=
  ps.foldl processPlot t

/-- Embeds `Layout.add` / `set.add`: adding a `Plot` that is already present
(equal label and coords) leaves the collection unchanged, otherwise the plot
is inserted. -/
def Layout.add (ps : List Plot) (p : Plot) : List Plot :=
  if p ∈ ps then ps else p :: ps

/-- `a ≤ b ≤ c ≤ d`: the breakpoint ordering the spec assumes. -/
def sortedCoords (p : Plot) : Prop := p.a ≤ p.b ∧ p.b ≤ p.c ∧ p.c ≤ p.d

instance (p : Plot) : Decidable (sortedCoords p) := by
  unfold sortedCoords; infer_instance

/-- `max` of an `Option ℚ` (absent = no constraint) and a value. -/
def omax (o : Option ℚ) (y : ℚ) : ℚ :=
  match o with
  | none => y
  | some z => max z y

/-- Maximum of a list of rationals, `none` when the list is empty. -/
def maxOfList (l : List ℚ) : Option ℚ :=
  l.foldl (fun o y => some (omax o y)) none

/-- The membership values contributed at point `x`: one per plot whose
sample sequence contains `x`. -/
def hitValues (ps : List Plot) (x : ℚ) : List ℚ :=
  (ps.filter (fun p => decide (x ∈ p.sampleXs))).map (fun p => p.membershipD x)

/-- Specification-side table, written from the (amended) spec's words: at
each point `x`, the maximum of `p.membership x` over the plots `p` whose
sample sequence contains `x`, absent when no plot samples `x`. -/
def tableSpec (ps : List Plot) (x : ℚ) : Option ℚ :=
  maxOfList (hitValues ps x)

/-- Combines an old table entry with an aggregated contribution. -/
def combine (o s : Option ℚ) : Option ℚ :=
  match s with
  | none => o
  | some v => some (omax o v)

/-- The three Water Temperature plots of `Figure._LAYOUTS_DATA`
(lines 120-129). -/
def lowWater : Plot := ⟨"Low temperature", (39, 40, 57, 65)⟩

/-- Medium Water Temperature plot. -/
def mediumWater : Plot := ⟨"Medium temperature", (55, 60, 79, 83)⟩

/-- High Water Temperature plot. -/
def highWater : Plot := ⟨"High temperature", (78, 83, 105, 106)⟩

/-- The Water Temperature layout record: `start = 40`, `end = 105`. -/
def waterLayout : Layout := ⟨"Water Temperature", 40, 105⟩

/-- The Water Temperature plot collection, built with `Layout.add` in the
dict order of the source. -/
def waterPlots : List Plot :=
  Layout.add (Layout.add (Layout.add [] lowWater) mediumWater) highWater

/-- Counterexample plot for C1: trapezoid `(0, 2, 2, 2)`, integer grid. -/
def cf1 : Plot := ⟨"f1", (0, 2, 2, 2)⟩

/-- Counterexample plot for C1: trapezoid `(1/2, 1/2, 3/2, 3/2)`, whose grid
is offset by one half from the grid of `cf1`. -/
def cf2 : Plot := ⟨"f2", (1/2, 1/2, 3/2, 3/2)⟩

/-- Counterexample plot for C2: degenerate trapezoid `(0, 0, 1, 1)`. -/
def degPlot : Plot := ⟨"deg", (0, 0, 1, 1)⟩

/-- Counterexample plot for C3: trapezoid `(0, 1, 2, 5/2)` with fractional
`size = 5/2`. -/
def c3Plot : Plot := ⟨"c3", (0, 1, 2, 5/2)⟩

/-- Malformed (unsorted) plot `(0, 10, 2, 20)` used for C4: `b > c`. -/
def malformedPlot : Plot := ⟨"m", (0, 10, 2, 20)⟩

/-- Step plot `(0, 0, 2, 2)` with both degenerate edges, used for C5. -/
def stepPlot : Plot := ⟨"s", (0, 0, 2, 2)⟩

end Matmod

namespace Matmod

/-- The `membership` method is total: the trailing `else` (Python's implicit
`return None`) is unreachable for every breakpoint tuple, sorted or not. -/
theorem membership_total (p : Plot) (x : ℚ) :
    p.membership x = some (p.membershipD x) := by
  unfold Plot.membershipD Plot.membership
  split_ifs with h1 h2 h3 h4
  · rfl
  · rfl
  · rfl
  · rfl
  · exfalso
    push_neg at h1 h2 h3 h4
    have hax : p.a ≤ x := h1.2
    have hbx : p.b ≤ x := h2 hax
    have hcx : p.c < x := h3 hbx
    have hdx : p.d < x := h4 hcx
    exact absurd h1.1 (not_le.mpr hdx)

theorem membershipD_of_lt_a (p : Plot) (x : ℚ) (h : x < p.a) :
    p.membershipD x = 0 := by
  unfold Plot.membershipD Plot.membership
  rw [if_pos (Or.inr h)]
  rfl

theorem membershipD_of_d_lt (p : Plot) (x : ℚ) (h : p.d < x) :
    p.membershipD x = 0 := by
  unfold Plot.membershipD Plot.membership
  rw [if_pos (Or.inl h)]
  rfl

theorem membershipD_ramp_up (p : Plot) (x : ℚ)
    (hax : p.a ≤ x) (hxb : x < p.b) (hxd : x ≤ p.d) :
    p.membershipD x = (x - p.a) / (p.b - p.a) := by
  unfold Plot.membershipD Plot.membership
  rw [if_neg (by push_neg; exact ⟨not_lt.mp (by exact not_lt.mpr hxd), hax⟩)]
  rw [if_pos ⟨hax, hxb⟩]
  rfl

theorem membershipD_plateau (p : Plot) (x : ℚ)
    (hab : p.a ≤ p.b) (hbx : p.b ≤ x) (hxc : x ≤ p.c) (hcd : p.c ≤ p.d) :
    p.membershipD x = 1 := by
  unfold Plot.membershipD Plot.membership
  rw [if_neg (by push_neg; constructor <;> linarith)]
  rw [if_neg (by push_neg; intro _; linarith)]
  rw [if_pos ⟨hbx, hxc⟩]
  rfl

theorem membershipD_ramp_down (p : Plot) (x : ℚ)
    (hab : p.a ≤ p.b) (hbc : p.b ≤ p.c) (hcx : p.c < x) (hxd : x ≤ p.d) :
    p.membershipD x = (p.d - x) / (p.d - p.c) := by
  unfold Plot.membershipD Plot.membership
  rw [if_neg (by push_neg; constructor <;> linarith)]
  rw [if_neg (by push_neg; intro _; linarith)]
  rw [if_neg (by push_neg; intro _; exact hcx)]
  rw [if_pos ⟨hcx, hxd⟩]
  rfl

/-- Every value `membership` returns lies in `[0, 1]`, for every breakpoint
tuple (sorted or not) and every input. -/
theorem membershipD_bounds (p : Plot) (x : ℚ) :
    0 ≤ p.membershipD x ∧ p.membershipD x ≤ 1 := by
  unfold Plot.membershipD Plot.membership
  split_ifs with h1 h2 h3 h4
  · simp
  · have hba : 0 < p.b - p.a := by linarith [h2.1, h2.2]
    simp only [Option.getD_some]
    constructor
    · exact div_nonneg (by linarith [h2.1]) (le_of_lt hba)
    · rw [div_le_one hba]
      linarith [h2.2]
  · simp
  · have hdc : 0 < p.d - p.c := by linarith [h4.1, h4.2]
    simp only [Option.getD_some]
    constructor
    · exact div_nonneg (by linarith [h4.2]) (le_of_lt hdc)
    · rw [div_le_one hdc]
      linarith [h4.1]
  · simp

theorem omax_none (y : ℚ) : omax none y = y := rfl

theorem omax_some (z y : ℚ) : omax (some z) y = max z y := rfl

theorem le_omax (o : Option ℚ) (y : ℚ) : y ≤ omax o y := by
  cases o with
  | none => exact le_refl y
  | some z => exact le_max_right z y

theorem omax_absorb (o : Option ℚ) (y : ℚ) : max (omax o y) y = omax o y :=
  max_eq_left (le_omax o y)

/-- The sample sequence as a single map over `List.range`. -/
theorem sampleXs_eq_map (p : Plot) :
    p.sampleXs = (List.range (Nat.ceil p.size)).map (fun k : ℕ => p.start + (k : ℚ)) := by
  unfold Plot.sampleXs numpyArange
  rw [List.map_map]
  rfl

/-- Membership at `x` in the sample sequence, characterized arithmetically. -/
theorem mem_sampleXs (p : Plot) (x : ℚ) :
    x ∈ p.sampleXs ↔ ∃ k : ℕ, k < Nat.ceil p.size ∧ x = p.start + k := by
  rw [sampleXs_eq_map]
  constructor
  · intro hx
    obtain ⟨k, hk, he⟩ := List.mem_map.mp hx
    exact ⟨k, List.mem_range.mp hk, he.symm⟩
  · rintro ⟨k, hk, rfl⟩
    exact List.mem_map.mpr ⟨k, List.mem_range.mpr hk, rfl⟩

end Matmod

namespace Matmod

/-- One `stepTable` update, observed at an arbitrary point `x`: only the key
`y` changes, and it changes to the running maximum. -/
theorem stepTable_at (p : Plot) (t : Table) (y x : ℚ) :
    stepTable p t y x = if x = y then some (omax (t y) (p.membershipD y)) else t x := by
  by_cases hxy : x = y
  · subst hxy
    unfold stepTable
    cases h : t x with
    | none =>
      simp [Table.update, h, omax]
    | some oldY =>
      by_cases hgt : oldY > p.membershipD x
      · simp [hgt, h, omax, max_eq_left (le_of_lt hgt)]
      · simp [hgt, h, omax, Table.update, max_eq_right (not_lt.mp hgt)]
  · unfold stepTable
    cases h : t y with
    | none =>
      simp [Table.update, hxy]
    | some oldY =>
      by_cases hgt : oldY > p.membershipD y
      · simp [hgt, hxy]
      · simp [hgt, Table.update, hxy]

theorem omax_omax (o : Option ℚ) (m : ℚ) :
    omax (some (omax o m)) m = omax o m := by
  rw [omax_some]
  exact omax_absorb o m

/-- Folding `stepTable` over any list of sample points, observed at `x`. -/
theorem foldStep_at (p : Plot) (l : List ℚ) (t : Table) (x : ℚ) :
    (l.foldl (stepTable p) t) x
      = if x ∈ l then some (omax (t x) (p.membershipD x)) else t x := by
  induction l generalizing t with
  | nil => simp
  | cons y l ih =>
    simp only [List.foldl_cons, List.mem_cons]
    rw [ih]
    by_cases hxy : x = y
    · subst hxy
      rw [stepTable_at, if_pos rfl]
      by_cases hxl : x ∈ l
      · simp [hxl, omax_omax]
      · simp [hxl]
    · rw [stepTable_at, if_neg hxy]
      by_cases hxl : x ∈ l
      · simp [hxl]
      · simp [hxl, hxy]

/-- Processing one plot, observed at `x`: the table keeps its value except at
the plot's own sample points, where the stored value becomes the max of the
old value and the plot's membership. -/
theorem processPlot_at (t : Table) (p : Plot) (x : ℚ) :
    processPlot t p x
      = if x ∈ p.sampleXs then some (omax (t x) (p.membershipD x)) else t x :=
  foldStep_at p p.sampleXs t x

theorem foldMax_some (l : List ℚ) (z : ℚ) :
    l.foldl (fun o y => some (omax o y)) (some z) = some (l.foldl max z) := by
  induction l generalizing z with
  | nil => rfl
  | cons y l ih =>
    simp only [List.foldl_cons, omax_some]
    exact ih (max z y)

theorem maxOfList_cons (y : ℚ) (l : List ℚ) :
    maxOfList (y :: l) = some (l.foldl max y) := by
  unfold maxOfList
  simp only [List.foldl_cons, omax_none]
  exact foldMax_some l y

theorem foldl_max_shift (l : List ℚ) (u v : ℚ) :
    l.foldl max (max u v) = max u (l.foldl max v) := by
  induction l generalizing v with
  | nil => rfl
  | cons h t ih =>
    simp only [List.foldl_cons]
    rw [max_assoc, ih (max v h)]

theorem hitValues_cons (p : Plot) (ps : List Plot) (x : ℚ) :
    hitValues (p :: ps) x
      = if x ∈ p.sampleXs then p.membershipD x :: hitValues ps x else hitValues ps x := by
  unfold hitValues
  rw [List.filter_cons]
  by_cases h : x ∈ p.sampleXs
  · simp [h]
  · simp [h]

theorem comb_step (o : Option ℚ) (m : ℚ) (l : List ℚ) :
    combine (some (omax o m)) (maxOfList l) = combine o (maxOfList (m :: l)) := by
  cases l with
  | nil =>
    cases o <;> rfl
  | cons h t =>
    rw [maxOfList_cons, maxOfList_cons]
    cases o with
    | none =>
      simp only [combine, omax_none, omax_some]
      rw [List.foldl_cons, foldl_max_shift t m h]
    | some z =>
      simp only [combine, omax_some]
      rw [List.foldl_cons, foldl_max_shift t m h, max_assoc]

/-- The aggregation loop of `Layout.create`, started from table `t`, observed
at a point `x`: the old entry combined with the maximum contribution of the
plots that sample `x`. -/
theorem create_at (ps : List Plot) (t : Table) (x : ℚ) :
    Layout.create t ps x = combine (t x) (tableSpec ps x) := by
  induction ps generalizing t with
  | nil =>
    show t x = combine (t x) (tableSpec [] x)
    cases t x <;> rfl
  | cons p ps ih =>
    show Layout.create (processPlot t p) ps x = _
    rw [ih, processPlot_at]
    unfold tableSpec
    rw [hitValues_cons]
    by_cases h : x ∈ p.sampleXs
    · rw [if_pos h, if_pos h]
      exact comb_step (t x) (p.membershipD x) (hitValues ps x)
    · rw [if_neg h, if_neg h]

theorem combine_none_left (s : Option ℚ) : combine none s = s := by
  cases s <;> rfl

/-- Main characterization: the table built by `Layout.create` from the empty
dict agrees everywhere with `tableSpec`. -/
theorem create_eq_tableSpec (ps : List Plot) (x : ℚ) :
    Layout.create emptyTable ps x = tableSpec ps x := by
  rw [create_at]
  exact combine_none_left (tableSpec ps x)

theorem combine_absorb (o s : Option ℚ) :
    combine (combine o s) s = combine o s := by
  cases s with
  | none => rfl
  | some v =>
    show some (omax (some (omax o v)) v) = some (omax o v)
    rw [omax_some]
    exact congrArg some (omax_absorb o v)

end Matmod

namespace Matmod

/-- `fun o y => some (omax o y)` is right-commutative, so `maxOfList` does
not depend on the order of its list. -/
theorem omax_right_comm (o : Option ℚ) (y₁ y₂ : ℚ) :
    some (omax (some (omax o y₁)) y₂) = some (omax (some (omax o y₂)) y₁) := by
  cases o with
  | none => simp [omax, max_comm]
  | some z => simp [omax, max_assoc, max_comm y₁ y₂]

theorem maxOfList_perm {l₁ l₂ : List ℚ} (h : l₁.Perm l₂) :
    maxOfList l₁ = maxOfList l₂ := by
  unfold maxOfList
  exact @List.Perm.foldl_eq _ _ (fun o y => some (omax o y)) _ _
    ⟨fun o y₁ y₂ => omax_right_comm o y₁ y₂⟩ h none

theorem hitValues_perm {ps qs : List Plot} (h : ps.Perm qs) (x : ℚ) :
    (hitValues ps x).Perm (hitValues qs x) := by
  unfold hitValues
  exact (h.filter (fun p => decide (x ∈ p.sampleXs))).map (fun p => p.membershipD x)

theorem tableSpec_perm {ps qs : List Plot} (h : ps.Perm qs) (x : ℚ) :
    tableSpec ps x = tableSpec qs x :=
  maxOfList_perm (hitValues_perm h x)

end Matmod

namespace Matmod

/-- Claim C8: for every membership function with sorted breakpoints
`(a, b, c, d)` satisfying `a ≤ b ≤ c ≤ d`, the derived accessors satisfy
`start = a`, `end = d` and `size = d - a`. -/
theorem C8_accessors (p : Plot) (hs : sortedCoords p) :
    p.start = p.a ∧ p.end_ = p.d ∧ p.size = p.d - p.a := by
  obtain ⟨hab, hbc, hcd⟩ := hs
  have h1 : p.start = p.a := by
    unfold Plot.start
    rw [min_eq_left hab, min_eq_left (le_trans hab hbc),
      min_eq_left (le_trans (le_trans hab hbc) hcd)]
  have h2 : p.end_ = p.d := by
    unfold Plot.end_
    rw [max_eq_right hab, max_eq_right hbc, max_eq_right hcd]
  refine ⟨h1, h2, ?_⟩
  unfold Plot.size
  rw [h1, h2]

/-- Witness for C8 at the Low water-temperature trapezoid `(39, 40, 57, 65)`. -/
theorem C8_accessors_witness :
    sortedCoords lowWater ∧
      (lowWater.start = lowWater.a ∧ lowWater.end_ = lowWater.d ∧
        lowWater.size = lowWater.d - lowWater.a) :=
  ⟨by norm_num [sortedCoords, lowWater, Plot.a, Plot.b, Plot.c, Plot.d],
   C8_accessors lowWater
     (by norm_num [sortedCoords, lowWater, Plot.a, Plot.b, Plot.c, Plot.d])⟩

/-- Claim C2 counterexample: for the degenerate sorted trapezoid
`(0, 0, 1, 1)` (where `a = b`), the claim's `membership(a) == 0` fails:
membership at `a = 0` evaluates to `1`, not `0`. -/
theorem C2_counterexample :
    sortedCoords degPlot ∧ degPlot.membershipD 0 = 1 ∧ (1 : ℚ) ≠ 0 := by
  refine ⟨by norm_num [sortedCoords, degPlot, Plot.a, Plot.b, Plot.c, Plot.d], ?_, by norm_num⟩
  norm_num [Plot.membershipD, Plot.membership, degPlot, Plot.a, Plot.b, Plot.c, Plot.d]

/-- Claim C2 (amended): for all breakpoints `(a, b, c, d)` with
`a ≤ b ≤ c ≤ d`: `membership(x) = 0` for `x < a` or `x > d`;
`membership(a) = 0` provided `a < b` (when `a = b` it is `1`, see
`C2_counterexample`); `membership(b) = 1`; `membership(c) = 1`;
`membership(d) = 0` provided `c < d` (when `c = d` it is `1`); and
`membership` is monotonically non-decreasing on `[a, b]` and non-increasing
on `[c, d]`. -/
theorem C2_membership_shape (p : Plot)
    (hab : p.a ≤ p.b) (hbc : p.b ≤ p.c) (hcd : p.c ≤ p.d) :
    (∀ x, x < p.a → p.membershipD x = 0) ∧
    (∀ x, p.d < x → p.membershipD x = 0) ∧
    (p.a < p.b → p.membershipD p.a = 0) ∧
    p.membershipD p.b = 1 ∧
    p.membershipD p.c = 1 ∧
    (p.c < p.d → p.membershipD p.d = 0) ∧
    (∀ x y, p.a ≤ x → x ≤ y → y ≤ p.b → p.membershipD x ≤ p.membershipD y) ∧
    (∀ x y, p.c ≤ x → x ≤ y → y ≤ p.d → p.membershipD y ≤ p.membershipD x) := by
  refine ⟨fun x hx => membershipD_of_lt_a p x hx,
    fun x hx => membershipD_of_d_lt p x hx, ?_, ?_, ?_, ?_, ?_, ?_⟩
  · intro hab'
    rw [membershipD_ramp_up p p.a le_rfl hab' (by linarith)]
    simp
  · exact membershipD_plateau p p.b hab le_rfl hbc hcd
  · exact membershipD_plateau p p.c hab hbc le_rfl hcd
  · intro hcd'
    rw [membershipD_ramp_down p p.d hab hbc hcd' le_rfl]
    simp
  · intro x y hax hxy hyb
    by_cases hyb' : y < p.b
    · have hxb : x < p.b := lt_of_le_of_lt hxy hyb'
      have hba : 0 < p.b - p.a := by linarith
      rw [membershipD_ramp_up p x hax hxb (by linarith),
        membershipD_ramp_up p y (le_trans hax hxy) hyb' (by linarith)]
      gcongr
    · have hyb2 : y = p.b := le_antisymm hyb (not_lt.mp hyb')
      rw [hyb2, membershipD_plateau p p.b hab le_rfl hbc hcd]
      exact (membershipD_bounds p x).2
  · intro x y hcx hxy hyd
    by_cases hcx' : p.c < x
    · have hcy : p.c < y := lt_of_lt_of_le hcx' hxy
      have hdc : 0 < p.d - p.c := by linarith
      rw [membershipD_ramp_down p x hab hbc hcx' (by linarith),
        membershipD_ramp_down p y hab hbc hcy hyd]
      gcongr
    · have hxc : x = p.c := le_antisymm (not_lt.mp hcx') hcx
      rw [hxc, membershipD_plateau p p.c hab hbc le_rfl hcd]
      exact (membershipD_bounds p y).2

/-- Witness for C2 (amended) at the Low water-temperature trapezoid
`(39, 40, 57, 65)`. -/
theorem C2_membership_shape_witness :
    lowWater.membershipD lowWater.a = 0 ∧ lowWater.membershipD lowWater.b = 1 ∧
    lowWater.membershipD lowWater.c = 1 ∧ lowWater.membershipD lowWater.d = 0 ∧
    lowWater.membershipD 38 = 0 :=
  have h := C2_membership_shape lowWater
    (by norm_num [lowWater, Plot.a, Plot.b])
    (by norm_num [lowWater, Plot.b, Plot.c])
    (by norm_num [lowWater, Plot.c, Plot.d])
  ⟨h.2.2.1 (by norm_num [lowWater, Plot.a, Plot.b]),
   h.2.2.2.1,
   h.2.2.2.2.1,
   h.2.2.2.2.2.1 (by norm_num [lowWater, Plot.c, Plot.d]),
   h.1 38 (by norm_num [lowWater, Plot.a])⟩

/-- Claim C5: for sorted breakpoints, membership evaluation is total (the
trailing `None` branch is unreachable) and never divides by zero: whenever a
ramp branch is taken its divisor is nonzero; when `a = b`, the rising-edge
division branch is unreachable for every real `x`, and membership jumps
directly to `1` at `x = a`; when `c = d`, the falling-edge division branch
is unreachable, the plateau value `1` extends through `x = d`, and
membership drops to `0` for every `x > d`. -/
theorem C5_no_div_by_zero (p : Plot)
    (hab : p.a ≤ p.b) (hbc : p.b ≤ p.c) (hcd : p.c ≤ p.d) :
    (∀ x, p.membership x = some (p.membershipD x)) ∧
    (∀ x, p.a ≤ x ∧ x < p.b → p.b - p.a ≠ 0) ∧
    (∀ x, p.c < x ∧ x ≤ p.d → p.d - p.c ≠ 0) ∧
    (p.a = p.b → (∀ x, ¬(p.a ≤ x ∧ x < p.b)) ∧ p.membershipD p.a = 1) ∧
    (p.c = p.d → (∀ x, ¬(p.c < x ∧ x ≤ p.d)) ∧ p.membershipD p.d = 1 ∧
      ∀ x, p.d < x → p.membershipD x = 0) := by
  refine ⟨membership_total p, ?_, ?_, ?_, ?_⟩
  · intro x hx
    have : p.a < p.b := lt_of_le_of_lt hx.1 hx.2
    exact ne_of_gt (by linarith)
  · intro x hx
    have : p.c < p.d := lt_of_lt_of_le hx.1 hx.2
    exact ne_of_gt (by linarith)
  · intro hab'
    constructor
    · intro x hx
      have : p.a < p.b := lt_of_le_of_lt hx.1 hx.2
      rw [hab'] at this
      exact lt_irrefl _ this
    · exact membershipD_plateau p p.a hab (le_of_eq hab'.symm) (le_trans hab hbc) hcd
  · intro hcd'
    refine ⟨?_, ?_, fun x hx => membershipD_of_d_lt p x hx⟩
    · intro x hx
      have : p.c < p.d := lt_of_lt_of_le hx.1 hx.2
      rw [hcd'] at this
      exact lt_irrefl _ this
    · exact membershipD_plateau p p.d hab (le_trans hbc hcd) (le_of_eq hcd'.symm) hcd

/-- Witness for C5 at the doubly degenerate step plot `(0, 0, 2, 2)`. -/
theorem C5_no_div_by_zero_witness :
    stepPlot.membership 1 = some (stepPlot.membershipD 1) ∧
    stepPlot.membershipD stepPlot.a = 1 ∧
    stepPlot.membershipD stepPlot.d = 1 ∧
    stepPlot.membershipD 3 = 0 :=
  have h := C5_no_div_by_zero stepPlot
    (by norm_num [stepPlot, Plot.a, Plot.b])
    (by norm_num [stepPlot, Plot.b, Plot.c])
    (by norm_num [stepPlot, Plot.c, Plot.d])
  ⟨h.1 1,
   (h.2.2.2.1 (by norm_num [stepPlot, Plot.a, Plot.b])).2,
   (h.2.2.2.2 (by norm_num [stepPlot, Plot.c, Plot.d])).2.1,
   (h.2.2.2.2 (by norm_num [stepPlot, Plot.c, Plot.d])).2.2 3
     (by norm_num [stepPlot, Plot.d])⟩

end Matmod

namespace Matmod

/-- Claim C4 counterexample (negation of the claim): there is no breakpoint
tuple — sorted or not — and no input for which `membership` yields a value
outside `[0, 1]`: each ramp branch is guarded so that its value lies in
`[0, 1)` whenever the branch is reachable. -/
theorem C4_counterexample :
    ¬ ∃ (p : Plot) (x : ℚ), p.membershipD x < 0 ∨ 1 < p.membershipD x := by
  rintro ⟨p, x, h | h⟩
  · exact absurd (membershipD_bounds p x).1 (not_le.mpr h)
  · exact absurd (membershipD_bounds p x).2 (not_le.mpr h)

/-- Claim C4 (amended): malformed (unsorted) breakpoint tuples are indeed
accepted unvalidated, but they can never produce a membership degree outside
`[0, 1]` or a negative ramp; the damage is limited to a degenerate shape —
e.g. for the unsorted tuple `(0, 10, 2, 20)` the plateau is unreachable and
membership at `b = 10` is `5/9` instead of `1`. -/
theorem C4_range_safe :
    (∀ (p : Plot) (x : ℚ), 0 ≤ p.membershipD x ∧ p.membershipD x ≤ 1) ∧
    malformedPlot.b = 10 ∧ malformedPlot.membershipD 10 = 5/9 ∧ (5/9 : ℚ) ≠ 1 := by
  refine ⟨membershipD_bounds, by norm_num [malformedPlot, Plot.b], ?_, by norm_num⟩
  norm_num [Plot.membershipD, Plot.membership, malformedPlot,
    Plot.a, Plot.b, Plot.c, Plot.d]

/-- Claim C3 counterexample: for the sorted trapezoid `(0, 1, 2, 5/2)` with
fractional `size = 5/2`, the sample sequence is `[0, 1, 2]`: it has `3`
points, not "exactly `f.size` points" as the claim states for every
trapezoid. -/
theorem C3_counterexample :
    sortedCoords c3Plot ∧ c3Plot.size = 5/2 ∧ c3Plot.sampleXs = [0, 1, 2] ∧
    ((c3Plot.sampleXs.length : ℚ) ≠ c3Plot.size) := by
  have hsize : c3Plot.size = 5/2 := by
    norm_num [c3Plot, Plot.size, Plot.end_, Plot.start, Plot.a, Plot.b, Plot.c, Plot.d]
  have hstart : c3Plot.start = 0 := by
    norm_num [c3Plot, Plot.start, Plot.a, Plot.b, Plot.c, Plot.d]
  have hceil : Nat.ceil c3Plot.size = 3 := by
    rw [hsize]
    norm_num [Nat.ceil_eq_iff]
  have hxs : c3Plot.sampleXs = [0, 1, 2] := by
    rw [sampleXs_eq_map, hceil, hstart]
    norm_num [List.range_succ]
  refine ⟨by norm_num [sortedCoords, c3Plot, Plot.a, Plot.b, Plot.c, Plot.d],
    hsize, hxs, ?_⟩
  rw [hxs, hsize]
  norm_num

/-- Claim C3 (amended): for every membership function `f`, the sample
sequence has exactly `⌈f.size⌉` points (not `f.size` points unless `f.size`
is a whole number), consecutive points differ by `1`, every point lies in
`[f.start, f.start + f.size)` (so the points are integers only when
`f.start` is an integer), and when `f.size > 0` the sequence starts at
`f.start`. -/
theorem C3_sample_sequence (p : Plot) :
    p.sampleXs.length = Nat.ceil p.size ∧
    p.sampleXs.Chain' (fun u v => v = u + 1) ∧
    (∀ x ∈ p.sampleXs, p.start ≤ x ∧ x < p.start + p.size) ∧
    (0 < p.size → p.sampleXs.head? = some p.start) := by
  refine ⟨?_, ?_, ?_, ?_⟩
  · rw [sampleXs_eq_map]
    simp
  · rw [sampleXs_eq_map, List.chain'_map]
    rw [List.chain'_iff_get]
    intro i hi
    simp only [List.get_eq_getElem, List.getElem_range]
    push_cast
    ring
  · intro x hx
    obtain ⟨k, hk, rfl⟩ := (mem_sampleXs p x).mp hx
    constructor
    · have : (0:ℚ) ≤ (k:ℚ) := Nat.cast_nonneg k
      linarith
    · have : (k:ℚ) < p.size := Nat.lt_ceil.mp hk
      linarith
  · intro hpos
    have h0 : 0 < Nat.ceil p.size := Nat.ceil_pos.mpr hpos
    rw [sampleXs_eq_map]
    obtain ⟨m, hm⟩ := Nat.exists_eq_succ_of_ne_zero (Nat.pos_iff_ne_zero.mp h0)
    rw [hm, List.range_succ_eq_map]
    simp

/-- Witness for C3 (amended) at the fractional-size trapezoid
`(0, 1, 2, 5/2)` and the sample point `1`. -/
theorem C3_sample_sequence_witness :
    c3Plot.sampleXs.length = Nat.ceil c3Plot.size ∧
    ((1:ℚ) ∈ c3Plot.sampleXs → c3Plot.start ≤ 1 ∧ (1:ℚ) < c3Plot.start + c3Plot.size) ∧
    (1:ℚ) ∈ c3Plot.sampleXs ∧
    (0:ℚ) < c3Plot.size ∧
    c3Plot.sampleXs.head? = some c3Plot.start := by
  have hmem : (1:ℚ) ∈ c3Plot.sampleXs := by
    rw [mem_sampleXs]
    refine ⟨1, ?_, by norm_num [c3Plot, Plot.start, Plot.a, Plot.b, Plot.c, Plot.d]⟩
    have hceil : Nat.ceil c3Plot.size = 3 := by
      norm_num [c3Plot, Plot.size, Plot.end_, Plot.start, Plot.a, Plot.b, Plot.c, Plot.d,
        Nat.ceil_eq_iff]
    rw [hceil]
    norm_num
  have hpos : (0:ℚ) < c3Plot.size := by
    norm_num [c3Plot, Plot.size, Plot.end_, Plot.start, Plot.a, Plot.b, Plot.c, Plot.d]
  exact ⟨(C3_sample_sequence c3Plot).1,
    fun h => (C3_sample_sequence c3Plot).2.2.1 1 h,
    hmem, hpos,
    (C3_sample_sequence c3Plot).2.2.2 hpos⟩

end Matmod

namespace Matmod

/-- Claim C1 counterexample: two trapezoids with sorted breakpoints whose
sample grids do not coincide.  `cf1 = (0,2,2,2)` samples the integers
`{0, 1}`; `cf2 = (1/2,1/2,3/2,3/2)` samples only `{1/2}`.  At the sampled
point `x = 1` the table holds `1/2`, but the maximum of the two membership
values at `1` is `1` (`cf2` covers `1` with membership `1` yet never samples
it), so `table[x] = max over all functions of membership(x)` fails. -/
theorem C1_counterexample :
    sortedCoords cf1 ∧ sortedCoords cf2 ∧
    Layout.create emptyTable [cf1, cf2] 1 = some (1/2) ∧
    cf2.membershipD 1 = 1 ∧
    Layout.create emptyTable [cf1, cf2] 1
      ≠ some (max (cf1.membershipD 1) (cf2.membershipD 1)) := by
  have hm1 : cf1.membershipD 1 = 1/2 := by
    norm_num [Plot.membershipD, Plot.membership, cf1, Plot.a, Plot.b, Plot.c, Plot.d]
  have hm2 : cf2.membershipD 1 = 1 := by
    norm_num [Plot.membershipD, Plot.membership, cf2, Plot.a, Plot.b, Plot.c, Plot.d]
  have hin1 : (1:ℚ) ∈ cf1.sampleXs := by
    rw [mem_sampleXs]
    refine ⟨1, ?_, by norm_num [cf1, Plot.start, Plot.a, Plot.b, Plot.c, Plot.d]⟩
    have h : Nat.ceil cf1.size = 2 := by
      norm_num [cf1, Plot.size, Plot.end_, Plot.start, Plot.a, Plot.b, Plot.c, Plot.d]
    rw [h]
    norm_num
  have hnot2 : (1:ℚ) ∉ cf2.sampleXs := by
    rw [mem_sampleXs]
    rintro ⟨k, hk, he⟩
    have h : Nat.ceil cf2.size = 1 := by
      norm_num [cf2, Plot.size, Plot.end_, Plot.start, Plot.a, Plot.b, Plot.c, Plot.d]
    rw [h] at hk
    have hk0 : k = 0 := by omega
    subst hk0
    norm_num [cf2, Plot.start, Plot.a, Plot.b, Plot.c, Plot.d] at he
  have htab : Layout.create emptyTable [cf1, cf2] 1 = some (1/2) := by
    rw [create_eq_tableSpec]
    unfold tableSpec
    rw [hitValues_cons, if_pos hin1, hitValues_cons, if_neg hnot2]
    show maxOfList [cf1.membershipD 1] = some (1/2)
    rw [maxOfList_cons, hm1]
    rfl
  refine ⟨by norm_num [sortedCoords, cf1, Plot.a, Plot.b, Plot.c, Plot.d],
    by norm_num [sortedCoords, cf2, Plot.a, Plot.b, Plot.c, Plot.d],
    htab, hm2, ?_⟩
  rw [htab, hm1, hm2, max_eq_right (by norm_num : (1:ℚ)/2 ≤ 1)]
  simp only [ne_eq, Option.some.injEq]
  norm_num

/-- Claim C1 (amended): after aggregation, for every point `x` the table
holds the maximum of `f.membership(x)` over the functions `f` whose SAMPLE
SEQUENCE contains `x` (absent when no function samples `x`); a function
covering `x` but sampling on an offset grid does not contribute (see
`C1_counterexample`).  When every function involved does sample `x` — in
particular for two overlapping functions on a shared grid — this is the
plain pointwise maximum, as the original claim states. -/
theorem C1_table_eq_sampled_max :
    (∀ (ps : List Plot) (x : ℚ), Layout.create emptyTable ps x = tableSpec ps x) ∧
    (∀ (f1 f2 : Plot) (x : ℚ), x ∈ f1.sampleXs → x ∈ f2.sampleXs →
      Layout.create emptyTable [f1, f2] x
        = some (max (f1.membershipD x) (f2.membershipD x))) := by
  refine ⟨create_eq_tableSpec, ?_⟩
  intro f1 f2 x h1 h2
  rw [create_eq_tableSpec]
  unfold tableSpec
  rw [hitValues_cons, if_pos h1, hitValues_cons, if_pos h2]
  show maxOfList [f1.membershipD x, f2.membershipD x] = _
  rw [maxOfList_cons]
  rfl

/-- Witness for C1 (amended): the Low and Medium water-temperature
trapezoids both sample the point `60`, and the table value there is the
maximum of their memberships. -/
theorem C1_table_eq_sampled_max_witness :
    (60:ℚ) ∈ lowWater.sampleXs ∧ (60:ℚ) ∈ mediumWater.sampleXs ∧
    Layout.create emptyTable [lowWater, mediumWater] 60
      = some (max (lowWater.membershipD 60) (mediumWater.membershipD 60)) := by
  have hlow : (60:ℚ) ∈ lowWater.sampleXs := by
    rw [mem_sampleXs]
    refine ⟨21, ?_, by norm_num [lowWater, Plot.start, Plot.a, Plot.b, Plot.c, Plot.d]⟩
    have h : Nat.ceil lowWater.size = 26 := by
      norm_num [lowWater, Plot.size, Plot.end_, Plot.start, Plot.a, Plot.b, Plot.c, Plot.d]
    rw [h]
    norm_num
  have hmed : (60:ℚ) ∈ mediumWater.sampleXs := by
    rw [mem_sampleXs]
    refine ⟨5, ?_, by norm_num [mediumWater, Plot.start, Plot.a, Plot.b, Plot.c, Plot.d]⟩
    have h : Nat.ceil mediumWater.size = 28 := by
      norm_num [mediumWater, Plot.size, Plot.end_, Plot.start, Plot.a, Plot.b, Plot.c, Plot.d]
    rw [h]
    norm_num
  exact ⟨hlow, hmed, C1_table_eq_sampled_max.2 lowWater mediumWater 60 hlow hmed⟩

/-- Claim C6: processing the functions during aggregation in any order
produces the same final table — aggregation is a pointwise maximum, which is
commutative and associative. -/
theorem C6_order_independence (ps qs : List Plot) (h : ps.Perm qs) :
    Layout.create emptyTable ps = Layout.create emptyTable qs := by
  funext x
  rw [create_eq_tableSpec, create_eq_tableSpec]
  exact tableSpec_perm h x

/-- Witness for C6 at the two-element collection `[cf1, cf2]` and its
transposition. -/
theorem C6_order_independence_witness :
    ([cf1, cf2] : List Plot).Perm [cf2, cf1] ∧
    Layout.create emptyTable [cf1, cf2] = Layout.create emptyTable [cf2, cf1] :=
  ⟨List.Perm.swap cf2 cf1 [], C6_order_independence _ _ (List.Perm.swap cf2 cf1 [])⟩

/-- Claim C7: running the aggregation loop a second time over the same
function set, starting from the table produced by the first run, leaves the
table identical to the result of a single run. -/
theorem C7_idempotent (ps : List Plot) :
    Layout.create (Layout.create emptyTable ps) ps = Layout.create emptyTable ps := by
  funext x
  rw [create_at, create_eq_tableSpec]
  have h := combine_absorb none (tableSpec ps x)
  rwa [combine_none_left] at h

end Matmod

namespace Matmod

/-- A point strictly below a plot's `start` is never sampled by that plot. -/
theorem not_mem_sampleXs_of_lt_start (p : Plot) (x : ℚ) (h : x < p.start) :
    x ∉ p.sampleXs := by
  rw [mem_sampleXs]
  rintro ⟨k, hk, rfl⟩
  have hknn : (0:ℚ) ≤ (k:ℚ) := Nat.cast_nonneg k
  linarith

/-- Claim C9: the aggregated table is not clipped to the layout's declared
domain `[start, end]`.  For the Water Temperature layout (domain start `40`)
the Low trapezoid `(39, 40, 57, 65)` starts sampling at `39 < 40`, so the
table contains the out-of-domain point `39` and lookup there returns the
membership value `0` rather than absence. -/
theorem C9_table_not_clipped :
    waterLayout.start = 40 ∧ (39 : ℚ) < waterLayout.start ∧
    Layout.create emptyTable waterPlots 39 = some 0 := by
  refine ⟨rfl, by norm_num [waterLayout], ?_⟩
  have hwp : waterPlots = [highWater, mediumWater, lowWater] := by
    simp [waterPlots, Layout.add, lowWater, mediumWater, highWater]
  have hhigh : (39:ℚ) ∉ highWater.sampleXs := by
    refine not_mem_sampleXs_of_lt_start highWater 39 ?_
    norm_num [highWater, Plot.start, Plot.a, Plot.b, Plot.c, Plot.d]
  have hmed : (39:ℚ) ∉ mediumWater.sampleXs := by
    refine not_mem_sampleXs_of_lt_start mediumWater 39 ?_
    norm_num [mediumWater, Plot.start, Plot.a, Plot.b, Plot.c, Plot.d]
  have hlow : (39:ℚ) ∈ lowWater.sampleXs := by
    rw [mem_sampleXs]
    refine ⟨0, ?_, by norm_num [lowWater, Plot.start, Plot.a, Plot.b, Plot.c, Plot.d]⟩
    have h : Nat.ceil lowWater.size = 26 := by
      norm_num [lowWater, Plot.size, Plot.end_, Plot.start, Plot.a, Plot.b, Plot.c, Plot.d]
    rw [h]
    norm_num
  have hm : lowWater.membershipD 39 = 0 := by
    norm_num [Plot.membershipD, Plot.membership, lowWater, Plot.a, Plot.b, Plot.c, Plot.d]
  rw [create_eq_tableSpec, hwp]
  unfold tableSpec
  rw [hitValues_cons, if_neg hhigh, hitValues_cons, if_neg hmed,
    hitValues_cons, if_pos hlow]
  show maxOfList [lowWater.membershipD 39] = some 0
  rw [maxOfList_cons, hm]
  rfl

/-- Claim C10: the function collection has set semantics over value-equal
records.  Adding a plot whose label and breakpoints both equal those of an
already-present plot leaves the collection — and hence the aggregated
table — unchanged, while a plot differing in label or in breakpoints is kept
as a distinct entry alongside the first, so both participate in
aggregation. -/
theorem C10_set_semantics (l : List Plot) (p q : Plot) :
    (p ∈ l → Layout.add l p = l) ∧
    Layout.add (Layout.add l p) p = Layout.add l p ∧
    Layout.create emptyTable (Layout.add (Layout.add l p) p)
      = Layout.create emptyTable (Layout.add l p) ∧
    ((p.label ≠ q.label ∨ p.coords ≠ q.coords) →
      p ∈ Layout.add (Layout.add l p) q ∧ q ∈ Layout.add (Layout.add l p) q) := by
  have add_def : ∀ (ps : List Plot) (r : Plot),
      Layout.add ps r = if r ∈ ps then ps else r :: ps := fun _ _ => rfl
  have hmem : p ∈ Layout.add l p := by
    rw [add_def l p]
    by_cases h : p ∈ l
    · rw [if_pos h]
      exact h
    · rw [if_neg h]
      exact List.mem_cons_self p l
  have hidem : Layout.add (Layout.add l p) p = Layout.add l p := by
    rw [add_def (Layout.add l p) p, if_pos hmem]
  refine ⟨?_, hidem, by rw [hidem], ?_⟩
  · intro h
    rw [add_def l p, if_pos h]
  · intro hne
    constructor
    · rw [add_def (Layout.add l p) q]
      by_cases h : q ∈ Layout.add l p
      · rw [if_pos h]
        exact hmem
      · rw [if_neg h]
        exact List.mem_cons_of_mem q hmem
    · rw [add_def (Layout.add l p) q]
      by_cases h : q ∈ Layout.add l p
      · rw [if_pos h]
        exact h
      · rw [if_neg h]
        exact List.mem_cons_self q _

/-- Witness for C10 at `l = [lowWater]`, `p = lowWater`,
`q = mediumWater`. -/
theorem C10_set_semantics_witness :
    lowWater ∈ ([lowWater] : List Plot) ∧
    Layout.add [lowWater] lowWater = [lowWater] ∧
    lowWater.label ≠ mediumWater.label ∧
    lowWater ∈ Layout.add (Layout.add [lowWater] lowWater) mediumWater ∧
    mediumWater ∈ Layout.add (Layout.add [lowWater] lowWater) mediumWater := by
  have hl : lowWater ∈ ([lowWater] : List Plot) := List.mem_cons_self lowWater []
  have hlab : lowWater.label ≠ mediumWater.label := by
    simp [lowWater, mediumWater]
  have h := C10_set_semantics [lowWater] lowWater mediumWater
  exact ⟨hl, h.1 hl, hlab, (h.2.2.2 (Or.inl hlab)).1, (h.2.2.2 (Or.inl hlab)).2⟩

end Matmod
